import Mathlib

/-!
Verification of the decimal column codec `clickhouse_driver/columns/decimalcolumn.py`.

The Python code converts between fixed-width scaled integers (the wire form) and
`decimal.Decimal` values, working inside `with localcontext() as ctx: ctx.prec =
self.max_precision`.  We embed Python `Decimal` numbers as coefficient/exponent
pairs `(c, e)` with value `c * 10^e`, and embed the context arithmetic of the
General Decimal Arithmetic specification (used by Python's `decimal` module):
an operation result whose coefficient has more than `prec` digits is rounded to
`prec` significant digits with round-half-even (the module's default rounding).
Construction of a `Decimal` from a string or an int is exact and ignores the
context; `int(Decimal)` truncates toward zero.

Only the value of a `Decimal` (never its internal exponent) is observable in the
claims (Python `==` on `Decimal` compares values), so the two operations used by
the code — multiplication by the int `10**scale`, and division by the int
`10**scale` — are embedded by their value-correct coefficient computation:
* `Decimal(c, e) * (10^s)` has exact coefficient `c * 10^s`, exponent `e`, then
  context rounding is applied (`__mul__`);
* `Decimal(r) / (10^s)` is, value-wise, the exact quotient `r / 10^s` rounded to
  at most `prec` significant digits, which equals the context rounding of the
  pair `(r, -s)` (the exact quotient always terminates in base 10 here).
-/

namespace ClickhouseDecimal

/-- Fuel-driven decimal digit counter: `numDigitsAux f n` is the number of
base-10 digits of `n` provided `n ≤ f` (0 has 0 digits). Structural recursion
on the fuel keeps the definition kernel-reducible on concrete inputs. -/
def numDigitsAux : Nat → Nat → Nat
  | _, 0 => 0
  | 0, _ + 1 => 0
  | fuel + 1, n + 1 => 1 + numDigitsAux fuel ((n + 1) / 10)

/-- Number of decimal digits of a natural number (`0` has `0` digits). -/
def numDigits (n : Nat) : Nat := numDigitsAux n n

/-- Round the integer `c / 10^d` to an integer with round-half-even, the
default rounding of Python's `decimal` module (`ROUND_HALF_EVEN`). -/
def halfEvenDiv (c : Int) (d : Nat) : Int :=
  if 2 * (c % (10 ^ d : Int)) < 10 ^ d then c / 10 ^ d
  else if (10 ^ d : Int) < 2 * (c % (10 ^ d : Int)) then c / 10 ^ d + 1
  else if (c / (10 ^ d : Int)) % 2 = 0 then c / 10 ^ d
  else c / 10 ^ d + 1

/-- Context rounding of the General Decimal Arithmetic specification at working
precision `prec`: a result coefficient with more than `prec` digits is rounded
(half-even) to `prec` digits, adjusting the exponent. -/
def roundDec (prec : Nat) (c e : Int) : Int × Int :=
  if numDigits c.natAbs ≤ prec then (c, e)
  else (halfEvenDiv c (numDigits c.natAbs - prec),
    e + ((numDigits c.natAbs - prec : Nat) : Int))

/-- Value of the decimal representation `(c, e)`, i.e. `c * 10^e`. -/
def decValue (c e : Int) : ℚ := (c : ℚ) * 10 ^ e

/-- Truncation toward zero, the behaviour of Python `int(Decimal(...))`. -/
def truncTowardZero (q : ℚ) : Int := if 0 ≤ q then ⌊q⌋ else ⌈q⌉

/-- A value of one of the accepted `py_types = (Decimal, float, int)`.
A float is represented by its decimal string form `str(x)` (the shortest
decimal string that round-trips to the float), which is the only thing the
code under study reads from it: `Decimal(str(item))`. -/
inductive PyVal
  | int (n : Int)
  | float (c e : Int)
  | dec (c e : Int)
deriving DecidableEq

/-- Decimal representation of `Decimal(str(item))`: exact for ints, the decimal
string form for floats, and the identity for `Decimal` values (`str` of a
`Decimal` reproduces its coefficient and exponent exactly). -/
def PyVal.decimalForm : PyVal → Int × Int
  | .int n => (n, 0)
  | .float c e => (c, e)
  | .dec c e => (c, e)

/-- Numeric value of a `PyVal`. -/
def PyVal.val (x : PyVal) : ℚ := decValue x.decimalForm.1 x.decimalForm.2

/-- Python `Decimal(c, e) * (10 ** s)` under working precision `prec`: the
exact product coefficient `c * 10^s` at exponent `e`, then context rounding. -/
def decimalMulPow10 (prec : Nat) (c e : Int) (s : Nat) : Int × Int :=
  roundDec prec (c * 10 ^ s) e

/-- Python `Decimal(r) / (10 ** s)` under working precision `prec`: value-wise
the exact quotient `(r, -s)` rounded to at most `prec` significant digits. -/
def decimalDivPow10 (prec : Nat) (r : Int) (s : Nat) : Int × Int :=
  roundDec prec r (-(s : Int))

/-- One item of `DecimalColumn.before_write_items`: the scaled raw integer
`int(Decimal(str(item)) * 10**scale)` when `scale >= 1`, and
`int(Decimal(str(item)))` otherwise. -/
def before_write_item (prec : Nat) (scale : Int) (x : PyVal) : Int :=
  if 1 ≤ scale then
    truncTowardZero
      (decValue (decimalMulPow10 prec x.decimalForm.1 x.decimalForm.2 scale.toNat).1
        (decimalMulPow10 prec x.decimalForm.1 x.decimalForm.2 scale.toNat).2)
  else
    truncTowardZero x.val

/-- One item of `DecimalColumn.after_read_items`: `Decimal(item) / 10**scale`
when `scale >= 1` (construction from the int is exact, division rounds under
the working precision), and `Decimal(item)` (exact) otherwise. -/
def decode_item (prec : Nat) (scale : Int) (r : Int) : ℚ :=
  if 1 ≤ scale then
    decValue (decimalDivPow10 prec r scale.toNat).1 (decimalDivPow10 prec r scale.toNat).2
  else
    (r : ℚ)

/-- The four width subclasses `Decimal32Column` / `Decimal64Column` /
`Decimal128Column` / `Decimal256Column`. -/
inductive WidthCls
  | w32
  | w64
  | w128
  | w256
deriving DecidableEq

/-- The `max_precision` class attribute of each width subclass. -/
def max_precision : WidthCls → Nat
  | .w32 => 9
  | .w64 => 18
  | .w128 => 38
  | .w256 => 76

/-- The `int_size` attribute (bytes of the wire integer) of each width
subclass.  `4` and `8` are set in `Decimal32Column` / `Decimal64Column`.
Modelled from the spec: `Decimal128Column` / `Decimal256Column` inherit
`int_size` from `Int128Column` / `Int256Column`, whose source is not part of
the fragment; the spec's width table (signed bounds `2^127-1` and `2^255-1`)
gives 16 and 32 bytes. -/
def int_size : WidthCls → Nat
  | .w32 => 4
  | .w64 => 8
  | .w128 => 16
  | .w256 => 32

/-- State of a constructed `DecimalColumn`: its width subclass, the stored
`precision` and `scale`, and the configuration inherited from the base
`Column` (`nullable`, the `null_value` sentinel, and the `types_check`
option). -/
structure DecimalColumn where
  width : WidthCls
  precision : Int
  scale : Int
  nullable : Bool
  null_value : Int
  types_check : Bool
deriving DecidableEq

/-- The bound `max_signed_int = (1 << (8 * int_size - 1)) - 1` computed in
`DecimalColumn.__init__`. -/
def max_signed_int (sz : Nat) : Int := 2 ^ (8 * sz - 1) - 1

/-- The exception raised by the `check_item` closure, carrying the offending
value (`ColumnTypeMismatchException(value)`). -/
structure ColumnTypeMismatchException where
  value : ℚ
deriving DecidableEq

/-- The `check_item` closure installed by `DecimalColumn.__init__` when
`types_check` is set: raises on `value < -max_signed_int or value >
max_signed_int`. -/
def check_item (sz : Nat) (v : ℚ) : Except ColumnTypeMismatchException Unit :=
  if v < -(max_signed_int sz) ∨ max_signed_int sz < v then
    .error ⟨v⟩
  else
    .ok ()

/-- Python truthiness of `nulls_map and nulls_map[i]`: false when `nulls_map`
is `None` (or out of range), else the flag at `i`. -/
def null_at (nulls_map : Option (List Bool)) (i : Nat) : Bool :=
  match nulls_map with
  | none => false
  | some l => l.getD i false

/-- `DecimalColumn.before_write_items`: rewrites every position of `items` in
place — null rows become the `null_value` sentinel and all other rows become
the scaled raw integer.  In-place mutation is embedded by returning the list
the caller's reference holds after the call. -/
def before_write_items (col : DecimalColumn) (prec : Nat) (items : List PyVal)
    (nulls_map : Option (List Bool)) : List Int :=
  (List.range items.length).map fun i =>
    if null_at nulls_map i then col.null_value
    else before_write_item prec col.scale (items.getD i (.int 0))

/-- `DecimalColumn.after_read_items`: null rows decode to `None`; other rows
decode via `decode_item`.  When `nulls_map` is present the iteration is over
`enumerate(nulls_map)`, indexing `items[i]`. -/
def after_read_items (col : DecimalColumn) (prec : Nat) (items : List Int)
    (nulls_map : Option (List Bool)) : List (Option ℚ) :=
  match nulls_map with
  | none => items.map fun r => some (decode_item prec col.scale r)
  | some nm =>
      (List.range nm.length).map fun i =>
        if nm.getD i false then none
        else some (decode_item prec col.scale (items.getD i 0))

/-- Failures that abort `prepare_items`: the type-mismatch exception raised by
`check_item`, or the runtime failure Python hits when a `None` row reaches the
non-nullable branch (comparison/conversion of `None` raises there). -/
inductive PrepError
  | type_mismatch (v : ℚ)
  | none_in_non_nullable
deriving DecidableEq

/-- First pass of `DecimalColumn.prepare_items` for one row: `None` rows of a
nullable column are flagged and replaced by the `null_value` sentinel before
any arithmetic; other rows pass through `check_item` when `types_check` is
enabled (the base `check_item_type` accepts every `PyVal`, since `py_types =
(Decimal, float, int)` covers all constructors). -/
def prepare_one (col : DecimalColumn) (x : Option PyVal) :
    Except PrepError (PyVal × Bool) :=
  match x with
  | none =>
      if col.nullable then .ok (.int col.null_value, true)
      else .error .none_in_non_nullable
  | some v =>
      if col.types_check then
        match check_item (int_size col.width) v.val with
        | .error ex => .error (.type_mismatch ex.value)
        | .ok _ => .ok (v, false)
      else .ok (v, false)

/-- `DecimalColumn.prepare_items`: null substitution and optional validation
over the whole batch (aborting on the first failure, before any write), then
`before_write_items` overwrites every position with the raw integers.  The
early-return branch of the source never fires for a `DecimalColumn` because
`before_write_items` is always present; the trailing numpy branch is specific
to `np.ndarray` inputs and is not modelled for list batches. -/
def prepare_items (col : DecimalColumn) (prec : Nat)
    (items : List (Option PyVal)) : Except PrepError (List Int) := do
  let pairs ← items.mapM (prepare_one col)
  let nulls_map := if col.nullable then some (pairs.map (·.2)) else none
  return before_write_items col prec (pairs.map (·.1)) nulls_map

/-- Semantics of `with localcontext() as ctx: ctx.prec = p; body`: the body
runs with the working precision set to `p` on a copy of the ambient context,
and `__exit__` restores the saved ambient context on every exit path (normal
return and raised exception alike), so the ambient precision after the call is
the ambient precision before it. -/
def with_localcontext {α : Type} (p : Nat) (body : Nat → α × Nat) :
    Nat → α × Nat :=
  fun ambient => ((body p).1, ambient)

/-- `DecimalColumn._write_data`: runs the write pipeline (`prepare_items`, and
then the fixed-width pack, which is a collaborator outside this fragment)
inside a local context at `max_precision`. -/
def write_data (col : DecimalColumn) (items : List (Option PyVal)) :
    Nat → Except PrepError (List Int) × Nat :=
  with_localcontext (max_precision col.width) fun prec =>
    (prepare_items col prec items, prec)

/-- `DecimalColumn._read_data`: runs the read pipeline (fixed-width unpack —
a collaborator — then `after_read_items`) inside a local context at
`max_precision`. -/
def read_data (col : DecimalColumn) (items : List Int)
    (nulls_map : Option (List Bool)) : Nat → List (Option ℚ) × Nat :=
  with_localcontext (max_precision col.width) fun prec =>
    (after_read_items col prec items nulls_map, prec)

/-- Error type named by the spec for malformed column declarations. The
construction path of the source never raises it for integer inputs. -/
inductive InvalidSpec
  | mk
deriving DecidableEq

/-- Width dispatch of `create_decimal_column`: `precision <= 9` selects the
32-bit class, `<= 18` the 64-bit, `<= 38` the 128-bit, anything else the
256-bit class. -/
def create_width (precision : Int) : WidthCls :=
  if precision ≤ 9 then .w32
  else if precision ≤ 18 then .w64
  else if precision ≤ 38 then .w128
  else .w256

/-- `create_decimal_column` after the two integers are parsed from the
`Decimal(P,S)` spec string: dispatches on the precision thresholds and
constructs the column, performing no range validation of precision or scale. -/
def create_decimal_column (precision scale : Int) (nullable : Bool)
    (null_value : Int) (types_check : Bool) : Except InvalidSpec DecimalColumn :=
  .ok ⟨create_width precision, precision, scale, nullable, null_value, types_check⟩

/-! ### Arithmetic facts about the embedded decimal operations -/

/-- Characterisation of the fuel-driven digit counter: when the fuel is
sufficient, `numDigitsAux fuel n ≤ k` iff `n < 10 ^ k`. -/
lemma numDigitsAux_le_iff :
    ∀ (fuel n : Nat), n ≤ fuel → ∀ k, (numDigitsAux fuel n ≤ k ↔ n < 10 ^ k) := by
  intro fuel
  induction fuel with
  | zero =>
    intro n hn k
    have hn0 : n = 0 := Nat.le_zero.mp hn
    subst hn0
    simp [numDigitsAux, Nat.pos_pow_of_pos, Nat.pow_pos]
  | succ f ih =>
    intro n hn k
    match n with
    | 0 => simp [numDigitsAux, Nat.pow_pos]
    | m + 1 =>
      rw [numDigitsAux]
      have hrec : (m + 1) / 10 ≤ f := by
        have := Nat.div_lt_self (Nat.succ_pos m) (by norm_num : 1 < 10)
        omega
      cases k with
      | zero => simp
      | succ k =>
        have h1 := ih ((m + 1) / 10) hrec k
        have h2 : (m + 1) / 10 < 10 ^ k ↔ m + 1 < 10 ^ k * 10 :=
          Nat.div_lt_iff_lt_mul (by norm_num)
        rw [pow_succ]
        generalize (10 : Nat) ^ k = P at h1 h2 ⊢
        omega

/-- Digit-count bound: `numDigits n ≤ k` iff `n < 10 ^ k`. -/
lemma numDigits_le_iff (n k : Nat) : numDigits n ≤ k ↔ n < 10 ^ k :=
  numDigitsAux_le_iff n n le_rfl k

/-- A nonzero natural with `d` digits is at least `10 ^ (d - 1)`. -/
lemma pow_numDigits_pred_le (n : Nat) (hn : n ≠ 0) : 10 ^ (numDigits n - 1) ≤ n := by
  have h1 : 1 ≤ numDigits n := by
    by_contra h
    push_neg at h
    have := (numDigits_le_iff n 0).mp (by omega)
    simp at this
    omega
  by_contra h
  push_neg at h
  have := (numDigits_le_iff n (numDigits n - 1)).mpr h
  omega

/-- `numDigits 0 = 0`. -/
lemma numDigits_zero : numDigits 0 = 0 := rfl

/-- Exact case of half-even rounding: when `10 ^ d` divides `c`, the rounded
quotient times `10 ^ d` recovers `c`. -/
lemma halfEvenDiv_mul_cancel {c : Int} {d : Nat} (h : (10 : Int) ^ d ∣ c) :
    halfEvenDiv c d * 10 ^ d = c := by
  have hpos : (0 : Int) < 10 ^ d := pow_pos (by norm_num) d
  have hm : c % ((10 : Int) ^ d) = 0 := Int.emod_eq_zero_of_dvd h
  rw [halfEvenDiv, hm]
  rw [if_pos (by omega : 2 * (0 : Int) < 10 ^ d)]
  exact Int.ediv_mul_cancel h

/-- Context rounding is the identity when the coefficient fits in `prec`
digits. -/
lemma roundDec_of_le {prec : Nat} {c : Int} (e : Int)
    (h : numDigits c.natAbs ≤ prec) : roundDec prec c e = (c, e) := by
  rw [roundDec, if_pos h]

/-- Value of a coefficient shifted by a power of ten. -/
lemma decValue_mul_pow (c e : Int) (s : Nat) :
    decValue (c * 10 ^ s) e = decValue c e * 10 ^ s := by
  rw [decValue, decValue]
  push_cast
  ring

/-- Value at exponent zero. -/
lemma decValue_zero_exp (c : Int) : decValue c 0 = (c : ℚ) := by
  rw [decValue, zpow_zero, mul_one]

/-- Value at a negated natural exponent is division by the power of ten. -/
lemma decValue_neg_exp (c : Int) (s : Nat) :
    decValue c (-(s : Int)) = (c : ℚ) / 10 ^ s := by
  rw [decValue, zpow_neg, zpow_natCast, div_eq_mul_inv]

/-- Truncation toward zero of an integer is the integer. -/
lemma truncTowardZero_intCast (m : Int) : truncTowardZero (m : ℚ) = m := by
  rw [truncTowardZero]
  split <;> simp

/-- Two decimal representations of the same value with ordered exponents are
related by an integer shift of the coefficients. -/
lemma decValue_eq_int {c e m t : Int} (het : e ≤ t)
    (h : decValue c e = decValue m t) : c = m * 10 ^ (t - e).toNat := by
  have hu : ((t - e).toNat : Int) = t - e := Int.toNat_of_nonneg (by omega)
  have h10 : (10 : ℚ) ≠ 0 := by norm_num
  have he : (10 : ℚ) ^ e ≠ 0 := zpow_ne_zero e h10
  have h2 : (c : ℚ) = (m : ℚ) * 10 ^ (((t - e).toNat : Int)) := by
    apply mul_right_cancel₀ he
    rw [decValue, decValue] at h
    rw [h, mul_assoc, ← zpow_add₀ h10, hu, sub_add_cancel]
  have h3 : (c : ℚ) = ((m * 10 ^ (t - e).toNat : Int) : ℚ) := by
    rw [h2, zpow_natCast]
    push_cast
    ring
  exact_mod_cast h3

/-- Central exactness property of the context arithmetic: rounding at working
precision `prec` does not change the value of a result that is expressible
with a coefficient of fewer than `prec + 1` digits (`value = m * 10 ^ t` with
`|m| < 10 ^ prec`).  This is what makes `prec = max_precision` sufficient for
the full digit budget of each width class. -/
lemma roundDec_value_exact (prec : Nat) (c e m t : Int)
    (hv : decValue c e = decValue m t) (hm : |m| < 10 ^ prec) :
    decValue (roundDec prec c e).1 (roundDec prec c e).2 = decValue c e := by
  by_cases hd : numDigits c.natAbs ≤ prec
  · rw [roundDec_of_le e hd]
  · push_neg at hd
    have hmabs : m.natAbs < 10 ^ prec := by
      have h1 : (m.natAbs : Int) < 10 ^ prec := by
        rw [← Int.abs_eq_natAbs]
        exact hm
      exact_mod_cast h1
    rcases le_or_lt e t with het | hte
    · -- the coefficient carries at least `d` trailing zeros
      have hce : c = m * 10 ^ (t - e).toNat := decValue_eq_int het hv
      have habs : c.natAbs = m.natAbs * 10 ^ (t - e).toNat := by
        rw [hce, Int.natAbs_mul, Int.natAbs_pow]
        rfl
      have hc0 : c ≠ 0 := by
        intro h0
        rw [h0] at hd
        simp [numDigits_zero] at hd
      have hlow : 10 ^ (numDigits c.natAbs - 1) ≤ c.natAbs :=
        pow_numDigits_pred_le _ (Int.natAbs_ne_zero.mpr hc0)
      have hdu : numDigits c.natAbs - prec ≤ (t - e).toNat := by
        by_contra hcon
        push_neg at hcon
        have h5 : c.natAbs < 10 ^ (prec + (t - e).toNat) := by
          rw [habs, pow_add]
          exact Nat.mul_lt_mul_of_lt_of_le hmabs le_rfl (Nat.pow_pos (by norm_num))
        have h6 : (10 : Nat) ^ (prec + (t - e).toNat) ≤ 10 ^ (numDigits c.natAbs - 1) :=
          Nat.pow_le_pow_right (by norm_num) (by omega)
        omega
      have hdvd : (10 : Int) ^ (numDigits c.natAbs - prec) ∣ c := by
        have h8 : (10 : Int) ^ (numDigits c.natAbs - prec) ∣ m * 10 ^ (t - e).toNat :=
          Dvd.dvd.mul_left (pow_dvd_pow (10 : Int) hdu) m
        rwa [← hce] at h8
      rw [roundDec, if_neg (by omega)]
      dsimp only
      have hcancel := halfEvenDiv_mul_cancel hdvd
      rw [decValue, decValue]
      rw [zpow_add₀ (by norm_num : (10:ℚ) ≠ 0), zpow_natCast]
      calc (halfEvenDiv c (numDigits c.natAbs - prec) : ℚ) *
            ((10:ℚ) ^ e * 10 ^ (numDigits c.natAbs - prec))
          = ((halfEvenDiv c (numDigits c.natAbs - prec) * 10 ^ (numDigits c.natAbs - prec) : Int) : ℚ)
              * 10 ^ e := by push_cast; ring
        _ = (c : ℚ) * 10 ^ e := by rw [hcancel]
    · -- impossible: the value then fits within `prec` digits
      exfalso
      have hmc : m = c * 10 ^ (e - t).toNat := decValue_eq_int (le_of_lt hte) hv.symm
      have h7 : c.natAbs ≤ m.natAbs := by
        rw [hmc, Int.natAbs_mul, Int.natAbs_pow]
        have : (0:Nat) < (Int.natAbs 10) ^ (e - t).toNat := Nat.pow_pos (by norm_num)
        exact Nat.le_mul_of_pos_right _ this
      have := (numDigits_le_iff c.natAbs prec).mpr (lt_of_le_of_lt h7 hmabs)
      omega

/-- Encoding is exact truncation of the scaled value whenever the scaled value
fits within the working precision's digit budget. -/
lemma before_write_item_exact (prec : Nat) (scale : Int) (hs : 1 ≤ scale)
    (x : PyVal) (m t : Int) (hv : x.val * 10 ^ scale.toNat = decValue m t)
    (hm : |m| < 10 ^ prec) :
    before_write_item prec scale x = truncTowardZero (x.val * 10 ^ scale.toNat) := by
  rw [before_write_item, if_pos hs, decimalMulPow10]
  have h1 : decValue (x.decimalForm.1 * 10 ^ scale.toNat) x.decimalForm.2
      = x.val * 10 ^ scale.toNat := by
    rw [decValue_mul_pow]
    rfl
  have h2 := roundDec_value_exact prec (x.decimalForm.1 * 10 ^ scale.toNat)
    x.decimalForm.2 m t (by rw [h1, hv]) hm
  rw [h2, h1]

/-- Decoding is the exact quotient whenever the quotient fits within the
working precision's digit budget. -/
lemma decode_item_exact (prec : Nat) (scale : Int) (hs : 1 ≤ scale) (r m t : Int)
    (hv : decValue r (-(scale.toNat : Int)) = decValue m t)
    (hm : |m| < 10 ^ prec) :
    decode_item prec scale r = decValue r (-(scale.toNat : Int)) := by
  rw [decode_item, if_pos hs, decimalDivPow10]
  exact roundDec_value_exact prec r (-(scale.toNat : Int)) m t hv hm

/-- Reduction of the write transform on a one-element batch. -/
lemma before_write_items_singleton (col : DecimalColumn) (prec : Nat) (x : PyVal) :
    before_write_items col prec [x] none = [before_write_item prec col.scale x] := rfl

/-- Reduction of the read transform on a one-element batch. -/
lemma after_read_items_singleton (col : DecimalColumn) (prec : Nat) (r : Int) :
    after_read_items col prec [r] none = [some (decode_item prec col.scale r)] := rfl

/-! ### The claims -/

/-- C1.  Round-trip exactness: for every valid column spec (precision in
1..76, scale in 0..precision) and every decimal value representable within the
selected width's digit budget at that scale (`v = m * 10^(-scale)` with
`|m| < 10 ^ max_precision`), reading back what was written returns the value
exactly: `after_read_items` applied to the raw integer produced by
`before_write_items` yields the value, including values using the full digit
budget through the 256-bit path. -/
theorem claim_roundtrip_exact (p sc c e m : Int)
    (hp1 : 1 ≤ p) (hp76 : p ≤ 76) (hs0 : 0 ≤ sc) (hsp : sc ≤ p)
    (hm : |m| < 10 ^ max_precision (create_width p))
    (hv : decValue c e = decValue m (-sc)) :
    after_read_items ⟨create_width p, p, sc, false, 0, false⟩
      (max_precision (create_width p))
      (before_write_items ⟨create_width p, p, sc, false, 0, false⟩
        (max_precision (create_width p)) [PyVal.dec c e] none) none
    = [some (decValue c e)] := by
  have hx : (PyVal.dec c e).val = decValue c e := rfl
  rw [before_write_items_singleton]
  by_cases hs : 1 ≤ sc
  · have hsnat : ((sc.toNat : Int)) = sc := Int.toNat_of_nonneg hs0
    have hv1 : (PyVal.dec c e).val * 10 ^ sc.toNat = decValue m 0 := by
      rw [hx, hv, decValue, decValue, zpow_zero, mul_one, mul_assoc,
        ← zpow_natCast (10 : ℚ) sc.toNat, ← zpow_add₀ (by norm_num : (10:ℚ) ≠ 0),
        hsnat, neg_add_cancel, zpow_zero, mul_one]
    have hraw : before_write_item (max_precision (create_width p)) sc (PyVal.dec c e) = m := by
      rw [before_write_item_exact _ sc hs _ m 0 hv1 hm, hv1, decValue_zero_exp,
        truncTowardZero_intCast]
    rw [hraw, after_read_items_singleton]
    have hv2 : decValue m (-(sc.toNat : Int)) = decValue c e := by
      rw [hsnat, ← hv]
    rw [decode_item_exact _ sc hs m m (-(sc.toNat : Int)) rfl hm, hv2]
  · have hsc0 : sc = 0 := by omega
    have hvm : decValue c e = (m : ℚ) := by
      rw [hv, hsc0, neg_zero, decValue_zero_exp]
    have hraw : before_write_item (max_precision (create_width p)) sc (PyVal.dec c e) = m := by
      rw [before_write_item, if_neg hs, hx, hvm, truncTowardZero_intCast]
    rw [hraw, after_read_items_singleton, decode_item, if_neg hs, hvm]

/-- Witness for C1 at the full 76-digit budget through the 256-bit path:
precision 76, scale 2, and the 76-digit value `(10^76 - 1) / 100`. -/
theorem claim_roundtrip_exact_witness :
    after_read_items ⟨create_width 76, 76, 2, false, 0, false⟩
      (max_precision (create_width 76))
      (before_write_items ⟨create_width 76, 76, 2, false, 0, false⟩
        (max_precision (create_width 76)) [PyVal.dec (10 ^ 76 - 1) (-2)] none) none
    = [some (decValue (10 ^ 76 - 1) (-2))] :=
  claim_roundtrip_exact 76 2 (10 ^ 76 - 1) (-2) (10 ^ 76 - 1)
    (by decide) (by decide) (by decide) (by decide) (by decide) rfl

/-- C2.  Width selector mapping: for every precision in 1..76,
`create_decimal_column` selects the width class given by the fixed
thresholds — 1..9 the 32-bit column (`max_precision` 9), 10..18 the 64-bit
(18), 19..38 the 128-bit (38), and 39..76 the 256-bit (76). -/
theorem claim_width_selector (p sc : Int) (nb : Bool) (nv : Int) (tc : Bool)
    (col : DecimalColumn)
    (hcol : create_decimal_column p sc nb nv tc = Except.ok col)
    (hp1 : 1 ≤ p) (hp76 : p ≤ 76) :
    (p ≤ 9 → col.width = WidthCls.w32 ∧ max_precision col.width = 9) ∧
    (10 ≤ p → p ≤ 18 → col.width = WidthCls.w64 ∧ max_precision col.width = 18) ∧
    (19 ≤ p → p ≤ 38 → col.width = WidthCls.w128 ∧ max_precision col.width = 38) ∧
    (39 ≤ p → col.width = WidthCls.w256 ∧ max_precision col.width = 76) := by
  have hw : col.width = create_width p := by
    rw [create_decimal_column] at hcol
    cases hcol
    rfl
  rw [hw, create_width]
  refine ⟨fun h1 => ?_, fun h1 h2 => ?_, fun h1 h2 => ?_, fun h1 => ?_⟩ <;>
    split_ifs <;> first
      | exact ⟨rfl, rfl⟩
      | omega

/-- Witness for C2 at precision 20 (the 128-bit class). -/
theorem claim_width_selector_witness :
    ((20 : Int) ≤ 9 →
      (⟨WidthCls.w128, 20, 0, false, 0, false⟩ : DecimalColumn).width = WidthCls.w32 ∧
        max_precision (⟨WidthCls.w128, 20, 0, false, 0, false⟩ : DecimalColumn).width = 9) ∧
    ((10 : Int) ≤ 20 → (20 : Int) ≤ 18 →
      (⟨WidthCls.w128, 20, 0, false, 0, false⟩ : DecimalColumn).width = WidthCls.w64 ∧
        max_precision (⟨WidthCls.w128, 20, 0, false, 0, false⟩ : DecimalColumn).width = 18) ∧
    ((19 : Int) ≤ 20 → (20 : Int) ≤ 38 →
      (⟨WidthCls.w128, 20, 0, false, 0, false⟩ : DecimalColumn).width = WidthCls.w128 ∧
        max_precision (⟨WidthCls.w128, 20, 0, false, 0, false⟩ : DecimalColumn).width = 38) ∧
    ((39 : Int) ≤ 20 →
      (⟨WidthCls.w128, 20, 0, false, 0, false⟩ : DecimalColumn).width = WidthCls.w256 ∧
        max_precision (⟨WidthCls.w128, 20, 0, false, 0, false⟩ : DecimalColumn).width = 76) :=
  claim_width_selector 20 0 false 0 false _ rfl (by decide) (by decide)

/-- C3 counterexample.  The claim says construction fails with `InvalidSpec`
for precision outside 1..76, scale > precision, or negative scale; the code
performs no such validation and returns a column object in all four cases. -/
theorem claim_invalidspec_counterexample :
    create_decimal_column 0 0 false 0 false
      = Except.ok ⟨WidthCls.w32, 0, 0, false, 0, false⟩ ∧
    create_decimal_column 100 5 false 0 false
      = Except.ok ⟨WidthCls.w256, 100, 5, false, 0, false⟩ ∧
    create_decimal_column 5 7 false 0 false
      = Except.ok ⟨WidthCls.w32, 5, 7, false, 0, false⟩ ∧
    create_decimal_column 5 (-1) false 0 false
      = Except.ok ⟨WidthCls.w32, 5, -1, false, 0, false⟩ :=
  ⟨rfl, rfl, rfl, rfl⟩

/-- C3 amended.  Construction never fails on integer precision and scale: no
range validation is performed, the width is chosen purely by the `<= 9 / <= 18
/ <= 38 / else` thresholds (so precision > 76 also yields the 256-bit class),
and precision and scale are stored unvalidated. -/
theorem claim_construction_never_fails (p sc : Int) (nb : Bool) (nv : Int)
    (tc : Bool) :
    create_decimal_column p sc nb nv tc
      = Except.ok ⟨create_width p, p, sc, nb, nv, tc⟩ := rfl

/-- C4 counterexample.  The claim asserts exact decoding `r / 10^scale` for
every raw integer of the width; but a 32-bit raw value with ten significant
digits exceeds the 9-digit working precision, so the division rounds:
`2147483647 / 10` decodes to `214748365`, not `214748364.7`. -/
theorem claim_decode_postcondition_counterexample :
    after_read_items ⟨WidthCls.w32, 9, 1, false, 0, false⟩ 9 [2147483647] none
      = [some ((214748365 : ℚ))] ∧
    ((214748365 : ℚ)) ≠ (2147483647 : ℚ) / 10 ^ (1 : Nat) := by
  constructor
  · rw [after_read_items_singleton]
    rw [decode_item, if_pos (by norm_num)]
    rw [show decimalDivPow10 9 2147483647 ((1 : Int).toNat) = (214748365, 0) from by decide]
    dsimp only
    rw [decValue_zero_exp]
    norm_num
  · norm_num

/-- C4 amended.  Decode postcondition restricted to the digit budget: for a
raw integer `r`, if `scale = 0` the decoded value is exactly `r` (for every
`r`, with no scaling); if `scale >= 1` and the exact quotient `r / 10^scale`
is representable with a coefficient below `10 ^ max_precision` (in particular
whenever `|r| < 10 ^ max_precision`), the decoded value is exactly
`r / 10^scale`.  Beyond that budget the division rounds half-even to
`max_precision` significant digits. -/
theorem claim_decode_postcondition (col : DecimalColumn) (r : Int) :
    (¬ 1 ≤ col.scale →
      after_read_items col (max_precision col.width) [r] none = [some ((r : ℚ))]) ∧
    (∀ m t : Int, 1 ≤ col.scale →
      decValue r (-(col.scale.toNat : Int)) = decValue m t →
      |m| < 10 ^ max_precision col.width →
      after_read_items col (max_precision col.width) [r] none
        = [some ((r : ℚ) / 10 ^ col.scale.toNat)]) := by
  constructor
  · intro hs
    rw [after_read_items_singleton, decode_item, if_neg hs]
  · intro m t hs hv hm
    rw [after_read_items_singleton,
      decode_item_exact (max_precision col.width) col.scale hs r m t hv hm,
      decValue_neg_exp]

/-- Witness for C4 on the 32-bit class at scale 1 with raw value 123. -/
theorem claim_decode_postcondition_witness :
    after_read_items ⟨WidthCls.w32, 9, 1, false, 0, false⟩
      (max_precision (⟨WidthCls.w32, 9, 1, false, 0, false⟩ : DecimalColumn).width)
      [123] none
      = [some ((123 : ℚ) / 10 ^ ((1 : Int).toNat))] :=
  (claim_decode_postcondition ⟨WidthCls.w32, 9, 1, false, 0, false⟩ 123).2
    123 (-((1 : Int).toNat : Int)) (by decide) rfl (by decide)

/-- C5 counterexample.  The claim asserts the raw integer is always
`v * 10^scale` truncated toward zero; but when the scaled value exceeds the
working precision's digit budget the product is first rounded half-even:
for `v = 123456789.55` at scale 1 on the 32-bit class the code produces
`1234567900`, while truncation of the exact product `1234567895.5` gives
`1234567895`. -/
theorem claim_encode_truncation_counterexample :
    before_write_items ⟨WidthCls.w32, 9, 1, false, 0, false⟩ 9
        [PyVal.dec 12345678955 (-2)] none
      = [(1234567900 : Int)] ∧
    (1234567900 : Int)
      ≠ truncTowardZero ((PyVal.dec 12345678955 (-2)).val * 10 ^ ((1 : Int).toNat)) := by
  constructor
  · rw [before_write_items_singleton]
    rw [before_write_item, if_pos (by norm_num), decimalMulPow10]
    dsimp only [PyVal.decimalForm]
    rw [show (12345678955 : Int) * 10 ^ ((1 : Int).toNat) = 123456789550 from by decide]
    rw [show roundDec 9 123456789550 (-2) = (123456790, 1) from by decide]
    dsimp only
    rw [show decValue 123456790 1 = ((1234567900 : Int) : ℚ) from by
      norm_num [decValue], truncTowardZero_intCast]
  · rw [show (PyVal.dec 12345678955 (-2)).val * 10 ^ ((1 : Int).toNat)
        = (12345678955 : ℚ) / 10 from by
      norm_num [PyVal.val, PyVal.decimalForm, decValue]]
    rw [show truncTowardZero ((12345678955 : ℚ) / 10) = 1234567895 from by
      norm_num [truncTowardZero]]
    norm_num

/-- C5 amended.  Encode postcondition restricted to the digit budget: for a
non-null input value `v`, if `scale = 0` the raw integer is `v` truncated
toward zero (for every `v`, no rounding mode); if `scale >= 1` and the exact
product `v * 10^scale` is representable with a coefficient below
`10 ^ max_precision`, the raw integer is `v * 10^scale` truncated toward
zero.  Beyond that budget the product is first rounded half-even to
`max_precision` significant digits and the truncation applies to the rounded
product. -/
theorem claim_encode_truncation (col : DecimalColumn) (x : PyVal) :
    (¬ 1 ≤ col.scale →
      before_write_items col (max_precision col.width) [x] none
        = [truncTowardZero x.val]) ∧
    (∀ m t : Int, 1 ≤ col.scale →
      x.val * 10 ^ col.scale.toNat = decValue m t →
      |m| < 10 ^ max_precision col.width →
      before_write_items col (max_precision col.width) [x] none
        = [truncTowardZero (x.val * 10 ^ col.scale.toNat)]) := by
  constructor
  · intro hs
    rw [before_write_items_singleton, before_write_item, if_neg hs]
  · intro m t hs hv hm
    rw [before_write_items_singleton,
      before_write_item_exact (max_precision col.width) col.scale hs x m t hv hm]

/-- Evaluation fact used by the witness of C5: the int input 5 scaled by one
power of ten has the exact decimal value 50. -/
lemma int_five_scaled_eval :
    (PyVal.int 5).val * 10 ^ ((1 : Int).toNat) = decValue 50 0 := by
  norm_num [PyVal.val, PyVal.decimalForm, decValue]

/-- Witness for C5 on the 32-bit class at scale 1 with input value 5 (the
scaled product is the two-digit coefficient 50, within the budget). -/
theorem claim_encode_truncation_witness :
    before_write_items ⟨WidthCls.w32, 9, 1, false, 0, false⟩
      (max_precision (⟨WidthCls.w32, 9, 1, false, 0, false⟩ : DecimalColumn).width)
      [PyVal.int 5] none
      = [truncTowardZero ((PyVal.int 5).val * 10 ^ ((1 : Int).toNat))] :=
  (claim_encode_truncation ⟨WidthCls.w32, 9, 1, false, 0, false⟩ (PyVal.int 5)).2
    50 0 (by decide) int_five_scaled_eval (by decide)

/-- C6.  Null transparency: for a row whose null-bitmap flag is true, decoding
yields `none` regardless of the raw integer stored at that position; on write
the position is set to the `null_value` sentinel regardless of the item there,
so the scale arithmetic is never applied to an absent value; and in
`prepare_items` a `None` row of a nullable column is replaced by the sentinel
(and flagged) before any arithmetic. -/
theorem claim_null_transparency (col : DecimalColumn) (prec : Nat)
    (raw : List Int) (items : List PyVal) (nm : List Bool) (i : Nat)
    (hi : i < nm.length) (hflag : nm.getD i false = true) :
    (after_read_items col prec raw (some nm))[i]? = some none ∧
    (i < items.length →
      (before_write_items col prec items (some nm))[i]?
        = some col.null_value) ∧
    (col.nullable = true →
      prepare_one col none = Except.ok (PyVal.int col.null_value, true)) := by
  have hflag2 : nm[i]?.getD false = true := by
    rw [← List.getD_eq_getElem?_getD]
    exact hflag
  refine ⟨?_, ?_, ?_⟩
  · rw [after_read_items]
    rw [List.getElem?_map, List.getElem?_range hi]
    simp [hflag2]
  · intro hil
    rw [before_write_items, List.getElem?_map, List.getElem?_range hil]
    simp [null_at, hflag2]
  · intro hn
    simp [prepare_one, hn]

/-- Witness for C6: a nullable 32-bit column, raw batch `[999]` with bitmap
`[true]`, write batch `[7]` with the same bitmap, at position 0. -/
theorem claim_null_transparency_witness :
    (after_read_items ⟨WidthCls.w32, 5, 2, true, 0, false⟩ 9 [999]
        (some [true]))[0]? = some none ∧
    (0 < ([PyVal.int 7] : List PyVal).length →
      (before_write_items ⟨WidthCls.w32, 5, 2, true, 0, false⟩ 9 [PyVal.int 7]
          (some [true]))[0]?
        = some (⟨WidthCls.w32, 5, 2, true, 0, false⟩ : DecimalColumn).null_value) ∧
    ((⟨WidthCls.w32, 5, 2, true, 0, false⟩ : DecimalColumn).nullable = true →
      prepare_one ⟨WidthCls.w32, 5, 2, true, 0, false⟩ none
        = Except.ok (PyVal.int (⟨WidthCls.w32, 5, 2, true, 0, false⟩ : DecimalColumn).null_value, true)) :=
  claim_null_transparency ⟨WidthCls.w32, 5, 2, true, 0, false⟩ 9 [999]
    [PyVal.int 7] [true] 0 (by decide) (by decide)

/-- Reduction of `List.mapM` over `Except` on a one-element list. -/
lemma mapM_except_singleton {α β ε : Type} (f : α → Except ε β) (x : α) :
    List.mapM f [x] = Except.bind (f x) (fun b => Except.ok [b]) := by
  cases h : f x <;>
    simp [List.mapM, List.mapM.loop, h, Bind.bind, Except.bind, pure, Except.pure]

/-- C7.  Validator boundary: with `types_check` enabled, `check_item` accepts
a pre-scale value `v` iff `-(2^(width-1)-1) <= v <= 2^(width-1)-1`; the value
`2^(width-1)-1` is accepted and `2^(width-1)` is rejected with an exception
identifying the offending value; and in `prepare_items` the check is applied
to the value itself, before any multiplication by `10^scale` — the failure
condition does not involve the scale. -/
theorem claim_validator_boundary (w : WidthCls) :
    (∀ v : ℚ, check_item (int_size w) v = Except.ok () ↔
      -((max_signed_int (int_size w) : ℚ)) ≤ v ∧ v ≤ (max_signed_int (int_size w) : ℚ)) ∧
    ((max_signed_int (int_size w) : ℚ) = 2 ^ (8 * int_size w - 1) - 1) ∧
    check_item (int_size w) ((2 : ℚ) ^ (8 * int_size w - 1) - 1) = Except.ok () ∧
    check_item (int_size w) ((2 : ℚ) ^ (8 * int_size w - 1))
      = Except.error ⟨(2 : ℚ) ^ (8 * int_size w - 1)⟩ ∧
    (∀ (p sc nv : Int) (x : PyVal) (er : PrepError),
      prepare_items ⟨w, p, sc, false, nv, true⟩ (max_precision w) [some x]
          = Except.error er ↔
        er = PrepError.type_mismatch x.val ∧
          (x.val < -((max_signed_int (int_size w) : ℚ)) ∨
            (max_signed_int (int_size w) : ℚ) < x.val)) := by
  have hcast : ((max_signed_int (int_size w) : Int) : ℚ)
      = 2 ^ (8 * int_size w - 1) - 1 := by
    rw [max_signed_int]
    push_cast
    ring
  have hone : (1 : ℚ) ≤ 2 ^ (8 * int_size w - 1) :=
    one_le_pow₀ (by norm_num : (1 : ℚ) ≤ 2)
  refine ⟨?_, hcast, ?_, ?_, ?_⟩
  · intro v
    rw [check_item]
    split_ifs with h
    · refine iff_of_false (by simp) ?_
      rintro ⟨h1, h2⟩
      rcases h with h | h
      · linarith
      · linarith
    · push_neg at h
      exact iff_of_true rfl h
  · rw [check_item, if_neg]
    push_neg
    rw [hcast]
    constructor
    · linarith
    · linarith
  · rw [check_item, if_pos]
    right
    rw [hcast]
    linarith
  · intro p sc nv x er
    have hpi : prepare_items ⟨w, p, sc, false, nv, true⟩ (max_precision w) [some x]
        = Except.bind (prepare_one ⟨w, p, sc, false, nv, true⟩ (some x))
            (fun pr => Except.ok (before_write_items ⟨w, p, sc, false, nv, true⟩
              (max_precision w) [pr.1] none)) := by
      rw [prepare_items, mapM_except_singleton]
      cases h : prepare_one ⟨w, p, sc, false, nv, true⟩ (some x) <;>
        simp [Bind.bind, Except.bind, pure, Except.pure]
    by_cases hb : x.val < -((max_signed_int (int_size w) : ℚ)) ∨
        (max_signed_int (int_size w) : ℚ) < x.val
    · have hchk : check_item (int_size w) x.val = Except.error ⟨x.val⟩ := by
        rw [check_item, if_pos hb]
      have hpo : prepare_one ⟨w, p, sc, false, nv, true⟩ (some x)
          = Except.error (PrepError.type_mismatch x.val) := by
        rw [prepare_one]
        simp [hchk]
      rw [hpi, hpo]
      constructor
      · intro h
        refine ⟨?_, hb⟩
        cases h
        rfl
      · rintro ⟨rfl, _⟩
        rfl
    · have hchk : check_item (int_size w) x.val = Except.ok () := by
        rw [check_item, if_neg hb]
      have hpo : prepare_one ⟨w, p, sc, false, nv, true⟩ (some x)
          = Except.ok (x, false) := by
        rw [prepare_one]
        simp [hchk]
      rw [hpi, hpo]
      refine iff_of_false (by simp [Except.bind]) ?_
      rintro ⟨_, hc⟩
      exact hb hc

/-- C8.  Floating-point inputs are converted through their decimal string
form, never through binary-float arithmetic: the write path reads only
`str(item)`, so a float input produces exactly the raw integer produced for
the exact decimal obtained from its decimal string form (the same coefficient
and exponent), and its value as seen by the codec is that decimal value. -/
theorem claim_float_via_string (prec : Nat) (scale : Int) (c e : Int) :
    before_write_item prec scale (PyVal.float c e)
      = before_write_item prec scale (PyVal.dec c e) ∧
    (PyVal.float c e).val = decValue c e :=
  ⟨rfl, rfl⟩

/-- C9.  Scoped precision context with unconditional restoration: every read
and every write runs its arithmetic at working precision
`max_precision(width)`, and the ambient precision in effect before the call is
restored on every exit path (the write result is an `Except`, so the equation
covers failing batches as well), leaving the ambient precision observably
unchanged. -/
theorem claim_localcontext_restored (col : DecimalColumn)
    (items : List (Option PyVal)) (raw : List Int) (nm : Option (List Bool))
    (ambient : Nat) :
    (write_data col items ambient).2 = ambient ∧
    (read_data col raw nm ambient).2 = ambient ∧
    (write_data col items ambient).1
      = prepare_items col (max_precision col.width) items ∧
    (read_data col raw nm ambient).1
      = after_read_items col (max_precision col.width) raw nm :=
  ⟨rfl, rfl, rfl, rfl⟩

/-- Shape of a successful `prepare_one` on a null row: the flagged sentinel
pair. -/
lemma prepare_one_ok_none (col : DecimalColumn) (b : PyVal × Bool)
    (h : prepare_one col none = Except.ok b) :
    b = (PyVal.int col.null_value, true) := by
  simp only [prepare_one] at h
  by_cases hn : col.nullable
  · rw [if_pos hn] at h
    cases h
    rfl
  · rw [if_neg hn] at h
    exact absurd h (by simp)

/-- Shape of a successful `prepare_one` on a value row: the unflagged value
pair. -/
lemma prepare_one_ok_some (col : DecimalColumn) (x : PyVal) (b : PyVal × Bool)
    (h : prepare_one col (some x) = Except.ok b) :
    b = (x, false) := by
  simp only [prepare_one] at h
  by_cases ht : col.types_check
  · rw [if_pos ht] at h
    cases hc : check_item (int_size col.width) x.val with
    | error ex =>
      rw [hc] at h
      exact absurd h (by simp)
    | ok u =>
      rw [hc] at h
      cases h
      rfl
  · rw [if_neg ht] at h
    cases h
    rfl

/-- A `None` row in a non-nullable column aborts `prepare_items`. -/
lemma prepare_one_none_error (col : DecimalColumn) (hnul : col.nullable = false) :
    prepare_one col none = Except.error PrepError.none_in_non_nullable := by
  simp [prepare_one, hnul]

/-- Characterisation of a successful first pass over the batch: the produced
pairs are the pointwise null-substitution of the items, and in a non-nullable
column no item was `None`. -/
lemma mapM_prepare_ok (col : DecimalColumn) :
    ∀ (items : List (Option PyVal)) (pairs : List (PyVal × Bool)),
      items.mapM (prepare_one col) = Except.ok pairs →
      pairs = items.map (fun it => match it with
        | none => (PyVal.int col.null_value, true)
        | some x => (x, false)) ∧
      (col.nullable = false → ∀ it ∈ items, it ≠ none) := by
  intro items
  induction items with
  | nil =>
    intro pairs h
    rw [List.mapM_nil] at h
    simp only [pure, Except.pure] at h
    cases h
    simp
  | cons a l ih =>
    intro pairs h
    rw [List.mapM_cons] at h
    cases ha : prepare_one col a with
    | error e =>
      rw [ha] at h
      simp [Bind.bind, Except.bind] at h
    | ok b =>
      rw [ha] at h
      cases hl : l.mapM (prepare_one col) with
      | error e =>
        rw [hl] at h
        simp [Bind.bind, Except.bind] at h
      | ok bs =>
        rw [hl] at h
        simp only [Bind.bind, Except.bind, pure, Except.pure] at h
        cases h
        obtain ⟨hmap, hnn⟩ := ih bs hl
        constructor
        · rw [List.map_cons, ← hmap]
          cases a with
          | none => rw [prepare_one_ok_none col b ha]
          | some x => rw [prepare_one_ok_some col x b ha]
        · intro hnul it hit
          rcases List.mem_cons.mp hit with rfl | hmem
          · intro hnone
            rw [hnone, prepare_one_none_error col hnul] at ha
            exact absurd ha (by simp)
          · exact hnn hnul it hmem

/-- Pointwise description of the write transform. -/
lemma before_write_items_getElem? (col : DecimalColumn) (prec : Nat)
    (xs : List PyVal) (nmOpt : Option (List Bool)) (n : Nat) :
    (before_write_items col prec xs nmOpt)[n]? =
      if n < xs.length then
        some (if null_at nmOpt n then col.null_value
          else before_write_item prec col.scale (xs.getD n (.int 0)))
      else none := by
  rw [before_write_items, List.getElem?_map]
  by_cases h : n < xs.length
  · rw [List.getElem?_range h, if_pos h]
    rfl
  · rw [if_neg h, List.getElem?_eq_none (by simpa using h)]
    rfl

/-- On success, `prepare_items` returns the batch with every position
overwritten: null rows hold the sentinel, all other rows the raw integer. -/
lemma prepare_items_ok_map (col : DecimalColumn) (prec : Nat)
    (items : List (Option PyVal)) (out : List Int)
    (h : prepare_items col prec items = Except.ok out) :
    out = items.map (fun it => match it with
      | none => col.null_value
      | some x => before_write_item prec col.scale x) := by
  rw [prepare_items] at h
  cases hm : items.mapM (prepare_one col) with
  | error e =>
    rw [hm] at h
    simp [Bind.bind, Except.bind] at h
  | ok pairs =>
    rw [hm] at h
    simp only [Bind.bind, Except.bind, pure, Except.pure] at h
    obtain ⟨hp, hnn⟩ := mapM_prepare_ok col items pairs hm
    cases h
    subst hp
    apply List.ext_getElem?
    intro n
    rw [before_write_items_getElem?, List.getElem?_map]
    by_cases hn : n < items.length
    · have hlen : n < ((items.map (fun it => match it with
          | none => (PyVal.int col.null_value, true)
          | some x => (x, false))).map (fun pr => pr.1)).length := by
        simpa using hn
      rw [if_pos hlen]
      obtain ⟨it, hit⟩ : ∃ it, items[n]? = some it :=
        ⟨items[n], List.getElem?_eq_getElem hn⟩
      rw [hit]
      cases it with
      | none =>
        cases hb : col.nullable with
        | false => exact absurd rfl (hnn hb none (List.getElem?_mem hit))
        | true =>
          simp [hb, null_at, List.getD_eq_getElem?_getD, hit]
      | some x =>
        cases hb : col.nullable with
        | false => simp [hb, null_at, List.getD_eq_getElem?_getD, hit]
        | true => simp [hb, null_at, List.getD_eq_getElem?_getD, hit]
    · rw [if_neg (by simpa using hn), List.getElem?_eq_none (by simpa using hn)]
      rfl

/-- C10.  Implicit frame effect of the write path: after
`prepare_items`/`before_write_items` run, every position of the batch the
caller passed holds the scaled raw integer (or the `null_value` sentinel for
null rows) instead of the original application value — so the input batch is
not left unchanged (the concrete batch `[Decimal 1.5]` at scale 0 ends up as
`[1]`, whose value differs from the original item's). -/
theorem claim_write_mutates_batch :
    (∀ (col : DecimalColumn) (prec : Nat) (items : List (Option PyVal))
        (out : List Int),
      prepare_items col prec items = Except.ok out →
      out = items.map (fun it => match it with
        | none => col.null_value
        | some x => before_write_item prec col.scale x)) ∧
    (prepare_items ⟨WidthCls.w32, 5, 0, false, 0, false⟩ 9
        [some (PyVal.dec 15 (-1))] = Except.ok [1] ∧
      ((1 : Int) : ℚ) ≠ (PyVal.dec 15 (-1)).val) := by
  refine ⟨fun col prec items out h => prepare_items_ok_map col prec items out h,
    ?_, ?_⟩
  · have h1 : before_write_item 9 0 (PyVal.dec 15 (-1)) = 1 := by
      rw [before_write_item, if_neg (by norm_num)]
      rw [show (PyVal.dec 15 (-1)).val = (3 : ℚ) / 2 from by
        norm_num [PyVal.val, PyVal.decimalForm, decValue]]
      rw [truncTowardZero, if_pos (by norm_num)]
      norm_num
    have hpo : prepare_one ⟨WidthCls.w32, 5, 0, false, 0, false⟩
        (some (PyVal.dec 15 (-1))) = Except.ok (PyVal.dec 15 (-1), false) := by
      simp [prepare_one]
    rw [prepare_items, mapM_except_singleton, hpo]
    show Except.ok (before_write_items ⟨WidthCls.w32, 5, 0, false, 0, false⟩ 9
      [PyVal.dec 15 (-1)] none) = Except.ok [1]
    rw [before_write_items_singleton]
    rw [show (⟨WidthCls.w32, 5, 0, false, 0, false⟩ : DecimalColumn).scale
        = 0 from rfl, h1]
  · norm_num [PyVal.val, PyVal.decimalForm, decValue]

/-- Witness for C10 on the concrete one-element batch of the theorem's second
component. -/
theorem claim_write_mutates_batch_witness :
    ([1] : List Int) = [some (PyVal.dec 15 (-1))].map (fun it => match it with
      | none => (⟨WidthCls.w32, 5, 0, false, 0, false⟩ : DecimalColumn).null_value
      | some x => before_write_item 9
          (⟨WidthCls.w32, 5, 0, false, 0, false⟩ : DecimalColumn).scale x) :=
  claim_write_mutates_batch.1 ⟨WidthCls.w32, 5, 0, false, 0, false⟩ 9
    [some (PyVal.dec 15 (-1))] [1] claim_write_mutates_batch.2.1

end ClickhouseDecimal
